import Mathlib

/-!
Verification of the truther pipeline (src/main.go) against its design
specification.  The repository's own code is the `Neural` optimization loop,
the graph construction feeding it, and the PCA projection in `main`; the
complex autodiff engine it drives (`tc128`) and the complex geometry helpers
(`cmplx.Abs`, `cmplx.Phase`) live outside src/ and are modelled from the
specification where a claim needs them (each such definition says so in its
doc comment).  All arithmetic is over the exact reals; float64 rounding is
not modelled.
-/

namespace Truther

noncomputable section

/-- Size of the square matrix (src/main.go line 27: `Size = 5`). -/
abbrev Size : Nat := 5

/-- Values of the three parameters of the Neural computation graph
(src/main.go lines 42–44): the trainable weight matrix `A` (Size×Size, the
Go code stores it row major, entry (i,j) at flat index i*Size+j), and the
fixed column vectors `X` and `Y` (Size×1).  Gradient buffers are recomputed
from scratch each iteration (`set.Zero()` then `tc128.Gradient`), so the
loop state is exactly these values. -/
structure NeuralState where
  A : Fin Size → Fin Size → ℂ
  X : Fin Size → ℂ
  Y : Fin Size → ℂ

/-- Modelled from the spec: forward value of the `tc128.Mul` node
(src/main.go line 61), `l1 = A × X`; spec §4.3 defines MatMul as the matrix
product. -/
def l1 (s : NeuralState) (j : Fin Size) : ℂ := ∑ k, s.A j k * s.X k

/-- Residual of the quadratic loss node, `target − actual = Y − A·X`. -/
def resid (s : NeuralState) (j : Fin Size) : ℂ := s.Y j - l1 s j

/-- Squared magnitude exactly as the Go loop accumulates it:
`cmplx.Abs(d) * cmplx.Abs(d)` (src/main.go line 74). -/
def absSq (z : ℂ) : ℝ := Complex.abs z * Complex.abs z

/-- Modelled from the spec: forward value of the `tc128.Quadratic` node
(src/main.go line 62), the sum over all elements of the squared magnitude of
`target − actual` (spec §4.3), returned by `tc128.Gradient` as a complex
scalar (`total`, src/main.go line 70). -/
def total (s : NeuralState) : ℂ := Complex.ofReal (∑ j, absSq (resid s j))

/-- Modelled from the spec: gradient buffer of the weight matrix `A` filled
by `tc128.Gradient` under the documented Wirtinger convention, stored
gradient `2·conj(∂L/∂z)` (spec §4.3); for `L = Σ_j |y_j − Σ_k A_jk·x_k|²`
this is `D_A[j][k] = −2·(y − A·x)_j·conj(x_k)`. -/
def dA (s : NeuralState) (j k : Fin Size) : ℂ :=
  -2 * resid s j * (starRingEnd ℂ) (s.X k)

/-- Modelled from the spec: gradient buffer of the input vector `X`,
`D_X[k] = −2·Σ_j (y − A·x)_j·conj(A_jk)` under the same convention. -/
def dX (s : NeuralState) (k : Fin Size) : ℂ :=
  -2 * ∑ j, resid s j * (starRingEnd ℂ) (s.A j k)

/-- Modelled from the spec: gradient buffer of the target vector `Y`,
`D_Y[j] = 2·(y − A·x)_j` under the same convention. -/
def dY (s : NeuralState) (j : Fin Size) : ℂ := 2 * resid s j

/-- Gradient entries of every parameter, in the order the nested Go loop
visits them (src/main.go lines 72–76): `set.Weights = [A, X, Y]`, each
buffer in storage order. -/
def allGrads (s : NeuralState) : List ℂ :=
  ((List.finRange Size).map fun j =>
      (List.finRange Size).map fun k => dA s j k).flatten
    ++ (List.finRange Size).map (dX s) ++ (List.finRange Size).map (dY s)

/-- Running sum of squared gradient magnitudes as the Go loop computes it:
`sum += cmplx.Abs(d) * cmplx.Abs(d)` over every parameter's gradient buffer
(src/main.go lines 71–76). -/
def gradSumSq (s : NeuralState) : ℝ :=
  (allGrads s).foldl (fun sum d => sum + absSq d) 0

/-- Gradient norm used for clipping: `norm := math.Sqrt(sum)`
(src/main.go line 77). -/
def norm (s : NeuralState) : ℝ := Real.sqrt (gradSumSq s)

/-- Clip factor: `scaling := 1; if norm > 1 { scaling = 1 / norm }`
(src/main.go lines 78–81). -/
def scaling (s : NeuralState) : ℝ := if norm s > 1 then 1 / norm s else 1

/-- Learning rate: `eta := complex128(.3)` (src/main.go line 64). -/
def eta : ℂ := Complex.ofReal 0.3

/-- One optimizer iteration's parameter update (src/main.go lines 83–86):
only `set.Weights[0]`, the matrix `A`, is written, each element by
`w.X[l] -= eta * d * complex(scaling, 0)`. -/
def step (s : NeuralState) : NeuralState :=
  { s with A := fun j k => s.A j k - eta * dA s j k * Complex.ofReal (scaling s) }

/-- Iteration count: `iterations := 128` (src/main.go line 64). -/
def iterations : Nat := 128

/-- Optimization loop of Neural (src/main.go lines 66–91) viewed from state
`s` at iteration index `i` with `fuel` iterations left: each iteration
appends `(i, cmplx.Abs(total))` to the plot points and steps the state. -/
def traceFrom : NeuralState → Nat → Nat → List (Nat × ℝ)
  | _, _, 0 => []
  | s, i, fuel+1 => (i, Complex.abs (total s)) :: traceFrom (step s) (i+1) fuel

/-- Full optimization trace of a Neural run starting from state `s`. -/
def neuralTrace (s : NeuralState) : List (Nat × ℝ) := traceFrom s 0 iterations

/-- Draw `n` of `random128(-1, 1)` (src/main.go lines 37–39) over the global
rand stream `r`: the real part uses stream value `2n`, the imaginary part
`2n+1`, each mapped by `(b−a)·r + a = 2·r − 1`. -/
def random128 (r : ℕ → ℝ) (n : ℕ) : ℂ := ⟨2 * r (2*n) - 1, 2 * r (2*n+1) - 1⟩

/-- Initial state built by Neural (src/main.go lines 46–59): `A` is filled
with `cap(w.X) = Size*Size` successive random draws, `X` with row 0 of the
eigenvector matrix (`vectors.At(0, i)`), and `Y` with `values[0]` times row
0 of the eigenvector matrix. -/
def initState (r : ℕ → ℝ) (vec0 : Fin Size → ℂ) (val0 : ℂ) : NeuralState where
  A := fun i j => random128 r (Size * i + j)
  X := fun i => vec0 i
  Y := fun i => val0 * vec0 i

/-- Modelled from the spec: derived magnitude of a complex component,
`magnitude = sqrt(re² + im²)` (`cmplx.Abs`, spec §4.1). -/
def magnitude (re im : ℝ) : ℝ := Real.sqrt (re^2 + im^2)

/-- Modelled from the spec: derived phase of a complex component,
`phase = atan2(im, re)` (`cmplx.Phase`, spec §4.1), with the standard
quadrant corrections of `math.Atan2`. -/
def atan2 (y x : ℝ) : ℝ :=
  if 0 < x then Real.arctan (y / x)
  else if x < 0 then
    (if 0 ≤ y then Real.arctan (y / x) + Real.pi else Real.arctan (y / x) - Real.pi)
  else if 0 < y then Real.pi / 2
  else if y < 0 then -(Real.pi / 2)
  else 0

/-- PCA projection of one row (src/main.go line 181,
`proj.Mul(ranks, vec.Slice(0, Size, 0, k))`): row `x` of the data matrix
times the first `k` columns of the component matrix `vec`. -/
def project (vec : Fin Size → Fin Size → ℝ) (k : ℕ) (hk : k ≤ Size)
    (x : Fin Size → ℝ) (j : Fin k) : ℝ :=
  ∑ i, x i * vec i ⟨j, lt_of_lt_of_le j.isLt hk⟩

/-- Norm as claim C1 states it, for comparison with the code's `norm`:
square root of the sum of squared gradient magnitudes over the trainable
parameter's (the weight matrix A's) elements only. -/
def claimedNormA (s : NeuralState) : ℝ :=
  Real.sqrt (∑ j, ∑ k, absSq (dA s j k))

/-- Concrete loop state used as a counterexample seed: zero weight matrix,
zero input vector, first basis vector as target. -/
def ex1 : NeuralState where
  A := fun _ _ => 0
  X := fun _ => 0
  Y := fun i => if i = 0 then 1 else 0

lemma foldl_add_absSq (l : List ℂ) (a : ℝ) :
    l.foldl (fun sum d => sum + absSq d) a = a + (l.map absSq).sum := by
  induction l generalizing a with
  | nil => simp
  | cons d l ih => simp [List.foldl_cons, ih, add_assoc]

lemma gradSumSq_eq (s : NeuralState) :
    gradSumSq s =
      (∑ j, ∑ k, absSq (dA s j k)) + (∑ k, absSq (dX s k)) +
        (∑ j, absSq (dY s j)) := by
  rw [gradSumSq, foldl_add_absSq, zero_add, allGrads]
  simp only [List.map_append, List.sum_append, List.map_flatten, List.sum_flatten,
    List.map_map, Function.comp_def, Fin.sum_univ_def]

lemma absSq_nonneg (z : ℂ) : 0 ≤ absSq z :=
  mul_nonneg (AbsoluteValue.nonneg _ z) (AbsoluteValue.nonneg _ z)

lemma absSq_mul (a b : ℂ) : absSq (a * b) = absSq a * absSq b := by
  simp only [absSq, map_mul]; ring

lemma absSq_ofReal (c : ℝ) : absSq (Complex.ofReal c) = c * c := by
  simp [absSq, Complex.abs_ofReal, abs_mul_abs_self]

lemma sumA_nonneg (s : NeuralState) : 0 ≤ ∑ j, ∑ k, absSq (dA s j k) :=
  Finset.sum_nonneg fun _ _ => Finset.sum_nonneg fun _ _ => absSq_nonneg _

lemma sumA_le_gradSumSq (s : NeuralState) :
    ∑ j, ∑ k, absSq (dA s j k) ≤ gradSumSq s := by
  rw [gradSumSq_eq]
  have h1 : 0 ≤ ∑ k, absSq (dX s k) := Finset.sum_nonneg fun k _ => absSq_nonneg _
  have h2 : 0 ≤ ∑ j, absSq (dY s j) := Finset.sum_nonneg fun j _ => absSq_nonneg _
  linarith

lemma scaling_nonneg (s : NeuralState) : 0 ≤ scaling s := by
  rw [scaling]
  split_ifs with h
  · exact div_nonneg zero_le_one (lt_trans zero_lt_one h).le
  · exact zero_le_one

lemma claimedNormA_mul_scaling_le_one (s : NeuralState) :
    Real.sqrt (∑ j, ∑ k, absSq (dA s j k)) * scaling s ≤ 1 := by
  have hle : Real.sqrt (∑ j, ∑ k, absSq (dA s j k)) ≤ norm s :=
    Real.sqrt_le_sqrt (sumA_le_gradSumSq s)
  rw [scaling]
  split_ifs with h
  · have hpos : 0 < norm s := lt_trans zero_lt_one h
    calc Real.sqrt (∑ j, ∑ k, absSq (dA s j k)) * (1 / norm s)
        ≤ norm s * (1 / norm s) :=
          mul_le_mul_of_nonneg_right hle (div_nonneg zero_le_one hpos.le)
      _ = 1 := by field_simp
  · rw [mul_one]
    exact le_trans hle (not_lt.mp h)

/-- C1 (amended): in every optimizer iteration the gradient norm used for
clipping is computed over the gradient elements of ALL parameters of the set
(A, X and Y), not only over the trainable weight matrix A:
norm = sqrt(Σ_A |g|² + Σ_X |g|² + Σ_Y |g|²). -/
theorem C1_norm_over_all_parameters (s : NeuralState) :
    norm s = Real.sqrt ((∑ j, ∑ k, absSq (dA s j k)) + (∑ k, absSq (dX s k)) +
      (∑ j, absSq (dY s j))) := by
  rw [norm, gradSumSq_eq]

lemma resid_ex1 (j : Fin Size) : resid ex1 j = if j = 0 then 1 else 0 := by
  simp [resid, ex1, l1]

lemma dA_ex1 (j k : Fin Size) : dA ex1 j k = 0 := by
  simp [dA, ex1]

lemma dX_ex1 (k : Fin Size) : dX ex1 k = 0 := by
  simp [dX, ex1]

lemma dY_ex1 (j : Fin Size) : dY ex1 j = if j = 0 then 2 else 0 := by
  rw [dY, resid_ex1]
  split_ifs <;> ring

lemma gradSumSq_ex1 : gradSumSq ex1 = 4 := by
  rw [gradSumSq_eq]
  simp [dA_ex1, dX_ex1, dY_ex1, absSq, Fin.sum_univ_five]
  norm_num

/-- C1 fails as stated: at the loop state `ex1` the norm the code computes
(over the gradients of A, X and Y) is 2, while the norm over the trainable
weight matrix A's gradient elements alone is 0 — the code's clipping norm is
not the norm over the trainable parameter's elements. -/
theorem C1_counterexample :
    norm ex1 = 2 ∧ claimedNormA ex1 = 0 ∧ norm ex1 ≠ claimedNormA ex1 := by
  have h1 : norm ex1 = 2 := by
    rw [norm, gradSumSq_ex1, show (4:ℝ) = 2^2 by norm_num,
      Real.sqrt_sq (by norm_num : (0:ℝ) ≤ 2)]
  have h2 : claimedNormA ex1 = 0 := by
    rw [claimedNormA]
    simp [dA_ex1, absSq]
  exact ⟨h1, h2, by rw [h1, h2]; norm_num⟩

/-- C2: in every iteration the clip factor equals 1 when the norm is ≤ 1 and
1/norm otherwise; the learning rate is the fixed real constant 0.3 for the
whole run (imaginary part 0); and each trainable element is updated as
value -= learningRate * gradient * scaling, with a real scaling factor. -/
theorem C2_clip_factor_and_update (s : NeuralState) :
    scaling s = (if norm s ≤ 1 then 1 else 1 / norm s) ∧
    eta = Complex.ofReal 0.3 ∧ eta.im = 0 ∧
    ∀ j k, (step s).A j k =
      s.A j k - Complex.ofReal 0.3 * dA s j k * Complex.ofReal (scaling s) := by
  refine ⟨?_, rfl, by simp [eta], fun j k => rfl⟩
  rw [scaling]
  rcases le_or_lt (norm s) 1 with h | h
  · rw [if_neg (not_lt.mpr h), if_pos h]
  · rw [if_pos (show norm s > 1 from h), if_neg (not_le.mpr h)]

/-- C3: in every optimizer iteration, after multiplying by the clip factor,
the Euclidean norm of the trainable weight matrix's gradient vector is at
most 1 + ε for every ε ≥ 0 (in exact real arithmetic it is at most 1). -/
theorem C3_clipped_gradient_norm_bounded (s : NeuralState) (ε : ℝ) (hε : 0 ≤ ε) :
    Real.sqrt (∑ j, ∑ k, absSq (dA s j k * Complex.ofReal (scaling s))) ≤ 1 + ε := by
  have hsum : (∑ j, ∑ k, absSq (dA s j k * Complex.ofReal (scaling s)))
      = (∑ j, ∑ k, absSq (dA s j k)) * (scaling s * scaling s) := by
    simp only [absSq_mul, absSq_ofReal, ← Finset.sum_mul]
  rw [hsum, show scaling s * scaling s = scaling s ^ 2 by ring,
    Real.sqrt_mul (sumA_nonneg s), Real.sqrt_sq (scaling_nonneg s)]
  exact le_trans (claimedNormA_mul_scaling_le_one s) (by linarith)

/-- Witness for C3 at the concrete state `ex1` and ε = 0. -/
theorem C3_witness :
    Real.sqrt (∑ j, ∑ k, absSq (dA ex1 j k * Complex.ofReal (scaling ex1))) ≤ 1 + 0 :=
  C3_clipped_gradient_norm_bounded ex1 0 le_rfl

/-- C4: across any number of optimizer iterations only the weight matrix A
is updated; the values of the X and Y parameters are unchanged (their
gradient buffers `dX`, `dY` are computed each iteration but never applied). -/
theorem C4_only_A_updated (s : NeuralState) (n : ℕ) :
    (step^[n] s).X = s.X ∧ (step^[n] s).Y = s.Y := by
  induction n with
  | zero => exact ⟨rfl, rfl⟩
  | succ n ih =>
    rw [Function.iterate_succ_apply']
    exact ⟨ih.1, ih.2⟩

lemma traceFrom_length (s : NeuralState) (i n : ℕ) : (traceFrom s i n).length = n := by
  induction n generalizing s i with
  | zero => rfl
  | succ n ih => simp [traceFrom, ih]

lemma traceFrom_get (s : NeuralState) (i n j : ℕ) (h : j < n) :
    (traceFrom s i n)[j]? = some (i + j, Complex.abs (total (step^[j] s))) := by
  induction n generalizing s i j with
  | zero => omega
  | succ n ih =>
    cases j with
    | zero => simp [traceFrom]
    | succ j =>
      rw [traceFrom, List.getElem?_cons_succ, ih (step s) (i+1) j (by omega),
        Function.iterate_succ_apply]
      have : i + 1 + j = i + (j + 1) := by omega
      rw [this]

/-- C5: the optimizer terminates solely by iteration count: from any start
state the trace has exactly 128 entries (`iterations = 128`, no convergence
check appears in the loop), and the entry at position i is the pair
(i, |cost_i|) where cost_i is the forward-evaluated loss at the state of
iteration i — so the iteration indices are 0..127 in increasing order and
the trace is built by appending one entry per iteration. -/
theorem C5_trace_shape (s : NeuralState) (i : Fin iterations) :
    iterations = 128 ∧ (neuralTrace s).length = 128 ∧
    (neuralTrace s)[(i : ℕ)]? = some ((i : ℕ), Complex.abs (total (step^[(i : ℕ)] s))) := by
  refine ⟨rfl, traceFrom_length s 0 iterations, ?_⟩
  have h := traceFrom_get s 0 iterations i i.isLt
  rwa [zero_add] at h

lemma initState_eq_of_agree (r1 r2 : ℕ → ℝ) (vec0 : Fin Size → ℂ) (val0 : ℂ)
    (h : ∀ n < 2 * (Size * Size), r1 n = r2 n) :
    initState r1 vec0 val0 = initState r2 vec0 val0 := by
  have hA : (fun i j => random128 r1 (Size * i + j) : Fin Size → Fin Size → ℂ)
      = (fun i j => random128 r2 (Size * i + j) : Fin Size → Fin Size → ℂ) := by
    funext i j
    have hi : (i : ℕ) < 5 := i.isLt
    have hj : (j : ℕ) < 5 := j.isLt
    have h1 : r1 (2 * (Size * i + j)) = r2 (2 * (Size * i + j)) := by
      apply h
      show 2 * (5 * (i : ℕ) + j) < 2 * (5 * 5)
      omega
    have h2 : r1 (2 * (Size * i + j) + 1) = r2 (2 * (Size * i + j) + 1) := by
      apply h
      show 2 * (5 * (i : ℕ) + j) + 1 < 2 * (5 * 5)
      omega
    simp only [random128, h1, h2]
  unfold initState
  rw [hA]

/-- C6: reproducibility — the Neural cost trace is a deterministic function
of the seeded random stream (together with the fixed eigendecomposition
inputs): two runs whose random streams agree on the 2·Size·Size = 50 draws
consumed for the initial weight matrix produce identical
iteration-by-iteration cost sequences. -/
theorem C6_deterministic_trace (r1 r2 : ℕ → ℝ) (vec0 : Fin Size → ℂ) (val0 : ℂ)
    (h : ∀ n < 2 * (Size * Size), r1 n = r2 n) :
    neuralTrace (initState r1 vec0 val0) = neuralTrace (initState r2 vec0 val0) := by
  rw [initState_eq_of_agree r1 r2 vec0 val0 h]

/-- Witness for C6 with both streams constantly 0 and zero eigen inputs. -/
theorem C6_witness :
    neuralTrace (initState (fun _ => 0) (fun _ => 0) 0) =
      neuralTrace (initState (fun _ => 0) (fun _ => 0) 0) :=
  C6_deterministic_trace (fun _ => 0) (fun _ => 0) (fun _ => 0) 0 (fun _ _ => rfl)

lemma atan2_bounds (y x : ℝ) : -Real.pi < atan2 y x ∧ atan2 y x ≤ Real.pi := by
  have hpi : 0 < Real.pi := Real.pi_pos
  have harc1 : Real.arctan (y / x) < Real.pi / 2 := Real.arctan_lt_pi_div_two _
  have harc2 : -(Real.pi / 2) < Real.arctan (y / x) := Real.neg_pi_div_two_lt_arctan _
  rw [atan2]
  split_ifs with h1 h2 h3 h4 h5
  · exact ⟨by linarith, by linarith⟩
  · have hyx : y / x ≤ 0 := div_nonpos_iff.mpr (Or.inl ⟨h3, h2.le⟩)
    have hle : Real.arctan (y / x) ≤ Real.arctan 0 := Real.arctan_strictMono.monotone hyx
    rw [Real.arctan_zero] at hle
    exact ⟨by linarith, by linarith⟩
  · have hyx : 0 < y / x := div_pos_of_neg_of_neg (lt_of_not_ge h3) h2
    have hlt : Real.arctan 0 < Real.arctan (y / x) := Real.arctan_strictMono hyx
    rw [Real.arctan_zero] at hlt
    exact ⟨by linarith, by linarith⟩
  · exact ⟨by linarith, by linarith⟩
  · exact ⟨by linarith, by linarith⟩
  · exact ⟨by linarith, by linarith⟩

/-- C7: for every eigenvalue and eigenvector component, the derived
magnitude sqrt(re² + im²) is nonnegative and the derived phase
atan2(im, re) lies in the half-open interval (-π, π]. -/
theorem C7_magnitude_phase_range (re im : ℝ) :
    0 ≤ magnitude re im ∧ -Real.pi < atan2 im re ∧ atan2 im re ≤ Real.pi :=
  ⟨Real.sqrt_nonneg _, (atan2_bounds im re).1, (atan2_bounds im re).2⟩

/-- C8: the PCA projection `data · components[:, :k]` is linear in the data
row: projecting a·x1 + x2 gives a times the projection of x1 plus the
projection of x2 (exactly, hence within any tolerance). -/
theorem C8_projection_linear (vec : Fin Size → Fin Size → ℝ) (k : ℕ) (hk : k ≤ Size)
    (a : ℝ) (x1 x2 : Fin Size → ℝ) (j : Fin k) :
    project vec k hk (fun i => a * x1 i + x2 i) j =
      a * project vec k hk x1 j + project vec k hk x2 j := by
  simp only [project, Finset.mul_sum, ← Finset.sum_add_distrib]
  exact Finset.sum_congr rfl fun i _ => by ring

/-- Witness for C8 at k = 2, all-ones components and rows, and a = 2. -/
theorem C8_witness :
    project (fun _ _ => (1:ℝ)) 2 (by decide)
        (fun i => (2:ℝ) * (fun _ => (1:ℝ)) i + (fun _ => (1:ℝ)) i) ⟨0, by decide⟩ =
      2 * project (fun _ _ => (1:ℝ)) 2 (by decide) (fun _ => (1:ℝ)) ⟨0, by decide⟩ +
        project (fun _ _ => (1:ℝ)) 2 (by decide) (fun _ => (1:ℝ)) ⟨0, by decide⟩ :=
  C8_projection_linear (fun _ _ => 1) 2 (by decide) 2 (fun _ => 1) (fun _ => 1) ⟨0, by decide⟩

/-- C10: at graph construction time, X is seeded from row 0 of the
eigenvector matrix and Y is the first eigenvalue times row 0 of the
eigenvector matrix, so Y = λ₀·X holds elementwise exactly at
initialization. -/
theorem C10_Y_eq_lambda0_mul_X (r : ℕ → ℝ) (vec0 : Fin Size → ℂ) (val0 : ℂ)
    (i : Fin Size) :
    (initState r vec0 val0).X i = vec0 i ∧
    (initState r vec0 val0).Y i = val0 * vec0 i ∧
    (initState r vec0 val0).Y i = val0 * (initState r vec0 val0).X i :=
  ⟨rfl, rfl, rfl⟩

end

end Truther
